import Mathlib

/-!
Verification of the gqlhash GraphQL fingerprinting library (package
`github.com/romshark/gqlhash` and its `parser` subpackage).

The development is a shallow embedding of the Go source into Lean:

* a Go byte slice becomes `List Nat` (each element a byte value < 256;
  no arithmetic overflows occur anywhere in the source, all bytes are
  only compared, so `Nat` is adequate);
* the caller-supplied digest (`parser.Hash`) is write-only inside the
  parser, so every parsing function returns, in order, the exact chunks
  it passed to `Hash.Write` (`Chunks := List (List Nat)`);
* Go's `error` results become `Option PErr` (`none` = nil error),
  with `PErr.eof` for `parser.ErrUnexpectedEOF` and `PErr.tok` for
  `parser.ErrUnexpectedToken`;
* a Go out-of-range slice/index panic becomes the `none` of an outer
  `Option` on the result; functions that cannot panic do not carry it.
  The mutually recursive grammar walkers additionally take a fuel
  parameter (first argument) to make the recursion structural; fuel
  exhaustion is also mapped to `none`.  All concrete documents below
  are evaluated with ample fuel, and every `none`-free result shown by
  `decide` is therefore the real (panic-free, fuel-independent)
  behaviour of the Go code.

Every definition is translated from the repository's source; the file
and line references name the Go declarations being embedded.
-/

namespace GqlHash

/-- Byte strings: Go `[]byte` as a list of byte values. -/
abbrev Bytes := List Nat

/-- The ordered list of chunks written to the digest (`Hash.Write` calls). -/
abbrev Chunks := List Bytes

/-- The two parser errors `ErrUnexpectedEOF` and `ErrUnexpectedToken`
(parser package, `var Err...` declarations). -/
inductive PErr where
  | eof
  | tok
deriving DecidableEq

/-! Hash prefixes (magic marker bytes), from the `var HPref...` block of
the parser package. -/

def HPrefQuery : Bytes := [0x1]
def HPrefMutation : Bytes := [0x2]
def HPrefSubscription : Bytes := [0x3]
def HPrefFragmentDefinition : Bytes := [0x4]
def HPrefVariableDefinition : Bytes := [0x5]
def HPrefDirective : Bytes := [0x6]
def HPrefField : Bytes := [0x7]
def HPrefType : Bytes := [0x8]
def HPrefFieldAliasedName : Bytes := [0xb]
def HPrefFragmentSpread : Bytes := [0xc]
def HPrefInlineFragment : Bytes := [0xe]
def HPrefArgument : Bytes := [0xf]
def HPrefSelectionSet : Bytes := [0x11]
def HPrefSelectionSetEnd : Bytes := [0x12]
def HPrefValueInputObject : Bytes := [0x13]
def HPrefValueInputObjectField : Bytes := [0x14]
def HPrefInputObjectEnd : Bytes := [0x15]
def HPrefValueNull : Bytes := [0x16]
def HPrefValueTrue : Bytes := [0x17]
def HPrefValueFalse : Bytes := [0x18]
def HPrefValueInteger : Bytes := [0x19]
def HPrefValueFloat : Bytes := [0x1a]
def HPrefValueEnum : Bytes := [0x1b]
def HPrefValueString : Bytes := [0x1c]
def HPrefValueList : Bytes := [0x1d]
def HPrefValueListEnd : Bytes := [0x1e]
def HPrefValueVariable : Bytes := [0x1f]

/-! Byte classification (`IsWhiteSpace`, `IsIgnorableByte`, `IsNameStart`,
`IsLetter`, `IsDigit`, `IsHexByte` and the lookup tables `lutLetter`,
`lutDigit`, `lutHex`). -/

/-- Go `IsWhiteSpace`: space or horizontal tab. -/
def IsWhiteSpace (b : Nat) : Bool := b == 32 || b == 9

/-- Go `IsIgnorableByte`: space, comma, tab, line-break, carriage-return. -/
def IsIgnorableByte (b : Nat) : Bool :=
  b == 32 || b == 44 || b == 9 || b == 10 || b == 13

/-- Go `lutLetter`: ASCII letters (the table marks exactly A-Z and a-z). -/
def IsLetter (b : Nat) : Bool :=
  (65 ≤ b && b ≤ 90) || (97 ≤ b && b ≤ 122)

/-- Go `IsNameStart`: a letter or underscore. -/
def IsNameStart (b : Nat) : Bool := IsLetter b || b == 95

/-- Go `lutDigit`: ASCII decimal digits. -/
def IsDigit (b : Nat) : Bool := 48 ≤ b && b ≤ 57

/-- Go `lutHex`: ASCII hexadecimal digits. -/
def IsHexByte (b : Nat) : Bool :=
  IsDigit b || (97 ≤ b && b ≤ 102) || (65 ≤ b && b ≤ 70)

/-- Name continuation bytes accepted by the loop of Go `ReadName`:
letter, digit or underscore. -/
def IsNameCont (b : Nat) : Bool := IsLetter b || IsDigit b || b == 95

/-- Go `HasPrefix`: byte-wise prefix test (second argument is the
sought token). -/
def HasPrefix : Bytes → Bytes → Bool
  | _, [] => true
  | [], _ :: _ => false
  | b :: s, c :: t => b == c && HasPrefix s t

/-- Go `ExpectNoEOF`: `ErrUnexpectedEOF` on empty input, nil otherwise. -/
def ExpectNoEOF (s : Bytes) : Option PErr :=
  if s.length < 1 then some .eof else none

/-- The loop of Go `SkipIgnorables`, with the comment scan folded into a
state flag: the Boolean is true while inside a `#` comment.  Go's comment
branch stops at the first line-break and leaves it for the outer loop,
which then skips it as an ignorable byte; here the line-break ends the
comment state directly, which consumes the same bytes. -/
def skipIgnAux : Bytes → Bool → Bytes
  | [], _ => []
  | b :: rest, true => if b == 10 then skipIgnAux rest false else skipIgnAux rest true
  | b :: rest, false =>
    if IsIgnorableByte b then skipIgnAux rest false
    else if b == 35 then skipIgnAux rest true
    else b :: rest

/-- Go `SkipIgnorables`: strip leading spaces, commas, tabs, line-breaks,
carriage-returns and `#`-to-end-of-line comments. -/
def SkipIgnorables (s : Bytes) : Bytes := skipIgnAux s false

/-- Go `ReadName`: one name-start byte then letters/digits/underscores.
Result is (name, suffix, error) exactly as the Go triple. -/
def ReadName (s : Bytes) : Bytes × Bytes × Option PErr :=
  match s with
  | [] => ([], [], some .eof)
  | b :: rest =>
    if IsNameStart b then
      (b :: rest.takeWhile IsNameCont, rest.dropWhile IsNameCont, none)
    else ([], s, some .tok)

/-- Go `ReadToken`: expect `token` as a prefix of `s` and strip it. -/
def ReadToken (s token : Bytes) : Bytes × Option PErr :=
  if s.length < 1 then (s, some .eof)
  else if HasPrefix s token then (s.drop token.length, none)
  else (s, some .tok)

/-- Go `ReadIntValue`.  The Go function reads `s[0]` unconditionally, so
on empty input it panics: that is the outer `none`. -/
def ReadIntValue (s : Bytes) : Option (Bytes × Bytes × Option PErr) :=
  match s with
  | [] => none
  | b :: rest =>
    if b == 45 then
      match rest with
      | [] => some ([], s, some .eof)
      | c :: rest2 =>
        if c == 48 then some (s.take 2, rest2, none)
        else
          let suf := rest.dropWhile IsDigit
          some (s.take (s.length - suf.length), suf, none)
    else if b == 48 then some (s.take 1, rest, none)
    else
      let suf := s.dropWhile IsDigit
      some (s.take (s.length - suf.length), suf, none)

/-- Go `ReadFloatAfterInteger`: fractional part (digits required after the
dot) then exponential part (digits NOT required after the marker/sign). -/
def ReadFloatAfterInteger (s : Bytes) : Bytes × Bytes × Option PErr :=
  let step1 : Option Bytes :=
    match s with
    | 46 :: rest =>
      let suf := rest.dropWhile IsDigit
      if suf.length == rest.length then none else some suf
    | _ => some s
  match step1 with
  | none =>
    -- no digits after the dot
    (([] : Bytes), s.drop 1, some .tok)
  | some suffix1 =>
    let suffix2 :=
      match suffix1 with
      | 101 :: rest => afterExpMarker rest
      | 69 :: rest => afterExpMarker rest
      | _ => suffix1
    (s.take (s.length - suffix2.length), suffix2, none)
where
  /-- The exponential part after `e`/`E`: optional sign, then any digits. -/
  afterExpMarker (rest : Bytes) : Bytes :=
    match rest with
    | [] => []
    | c :: rest2 =>
      if c == 45 || c == 43 then rest2.dropWhile IsDigit
      else (c :: rest2).dropWhile IsDigit

/-- The scanning loop of Go `ReadStringLineAfterQuotes`.  `s` is the whole
input (kept for the `s[:i]`-style results), `rem` is `s` from index `i` on,
and the recursion consumes `rem` exactly as the Go index `i` advances. -/
def readStrLineAux (s : Bytes) : Bytes → Nat → Bytes × Bytes × Option PErr
  | [], _ => (s, [], some .eof)
  | b :: rest, i =>
    if b == 34 then
      -- closing quote: value s[:i], suffix s[i+1:]
      (s.take i, s.drop (i + 1), none)
    else if b == 92 then
      match rest with
      | [] => (s.take i, s.drop i, some .eof)
      | e :: rest2 =>
        if e == 34 || e == 92 || e == 47 || e == 98 || e == 102 ||
            e == 110 || e == 114 || e == 116 then
          readStrLineAux s rest2 (i + 2)
        else if e == 117 then
          match rest2 with
          | h1 :: h2 :: h3 :: h4 :: rest3 =>
            if IsHexByte h1 && IsHexByte h2 && IsHexByte h3 && IsHexByte h4 then
              readStrLineAux s rest3 (i + 6)
            else (s.take (i + 1), s.drop (i + 1), some .tok)
          | _ => (s.take (i + 1), s.drop (i + 1), some .eof)
        else (s, s.drop i, some .tok)
    else if b < 32 then
      -- illegal control character in string value
      (s, [], some .tok)
    else readStrLineAux s rest (i + 1)

/-- Go `ReadStringLineAfterQuotes`: single-line string contents after the
opening quote. -/
def ReadStringLineAfterQuotes (s : Bytes) : Bytes × Bytes × Option PErr :=
  readStrLineAux s s 0

/-- The mutable locals of Go `ReadStringBlockAfterQuotes`: `prefixLen`
with its `prefixLenSet` flag, and `firstNonWhiteSpaceAndNewLine` with its
found flag. -/
structure BState where
  prefixLen : Nat
  plSet : Bool
  fnws : Nat
  fnwsFound : Bool
deriving DecidableEq

/-- Go closure `setNWSNL`: record the index of the first byte that is not
whitespace and not a line-break, once. -/
def setNWSNL (st : BState) (i : Nat) : BState :=
  if st.fnwsFound then st else { st with fnws := i, fnwsFound := true }

/-- The `prefixLen` update of the `case '\n'` branch of Go
`ReadStringBlockAfterQuotes`: first time set, afterwards minimum. -/
def pushPrefixLen (st : BState) (c : Nat) : BState :=
  if st.plSet then { st with prefixLen := min st.prefixLen c }
  else { st with prefixLen := c, plSet := true }

/-- Scanner mode for `blockAux`: `ws c` is Go's inner whitespace-skipping
loop of the `case '\n'` branch, having counted `c` whitespace bytes. -/
inductive BMode where
  | norm
  | ws (c : Nat)

/-- The scanning loop of Go `ReadStringBlockAfterQuotes`.  `rem` is the
input `s` from index `i` on.  The Go `case '\n'` skips a whitespace run
with an inner loop and then re-dispatches on the byte after the run; here
that is the `ws c` mode, which consumes the run byte-by-byte and performs
the end-of-run bookkeeping (`setNWSNL`, `isLastLine`, `prefixLen`) before
handling the run-terminating byte with the same dispatch as `norm` mode. -/
def blockAux (s : Bytes) : Nat → Bytes → Nat → BState → BMode →
    Option Bytes × Nat × Bytes × Option PErr
  | 0, _, _, st, _ => (none, st.prefixLen, [], some .eof)
  | _ + 1, [], _, st, .norm => (none, st.prefixLen, [], some .eof)
  | _ + 1, [], _, st, .ws c =>
    -- end of input inside a whitespace run: isLastLine is false there,
    -- so prefixLen is still updated before the EOF return
    ((none : Option Bytes), (pushPrefixLen st c).prefixLen, [], some .eof)
  | fuel + 1, b :: rest, i, st, .ws c =>
    if IsWhiteSpace b then blockAux s fuel rest (i + 1) st (.ws (c + 1))
    else
      let st1 := if b != 10 then setNWSNL st i else st
      let isLastLine : Bool :=
        match rest with
        | b1 :: b2 :: _ => b1 == 34 && b2 == 34
        | _ => false
      let st2 := if isLastLine then st1 else pushPrefixLen st1 c
      -- the byte after the run goes through the ordinary dispatch
      if b == 34 then
        match rest with
        | 34 :: 34 :: _ =>
          (if st2.fnwsFound && st2.fnws != i then some (s.take (i + 3)) else none,
            st2.prefixLen, s.drop (i + 3), none)
        | _ => blockAux s fuel rest (i + 1) (setNWSNL st2 i) .norm
      else if b == 92 then
        let st3 := setNWSNL st2 i
        match rest with
        | 34 :: 34 :: 34 :: rest4 => blockAux s fuel rest4 (i + 4) st3 .norm
        | _ => blockAux s fuel rest (i + 1) st3 .norm
      else if b == 10 then blockAux s fuel rest (i + 1) st2 (.ws 0)
      else if b < 32 then (none, st2.prefixLen, [], some .tok)
      else blockAux s fuel rest (i + 1) (setNWSNL st2 i) .norm
  | fuel + 1, b :: rest, i, st, .norm =>
    if b == 34 then
      match rest with
      | 34 :: 34 :: _ =>
        (if st.fnwsFound && st.fnws != i then some (s.take (i + 3)) else none,
          st.prefixLen, s.drop (i + 3), none)
      | _ => blockAux s fuel rest (i + 1) (setNWSNL st i) .norm
    else if b == 92 then
      let st1 := setNWSNL st i
      match rest with
      | 34 :: 34 :: 34 :: rest4 => blockAux s fuel rest4 (i + 4) st1 .norm
      | _ => blockAux s fuel rest (i + 1) st1 .norm
    else if b == 10 then blockAux s fuel rest (i + 1) st (.ws 0)
    else if IsWhiteSpace b then blockAux s fuel rest (i + 1) st .norm
    else if b < 32 then (none, st.prefixLen, [], some .tok)
    else blockAux s fuel rest (i + 1) (setNWSNL st i) .norm

/-- Go `ReadStringBlockAfterQuotes`: block string contents after the
opening triple quote.  The value is `none` when the Go function returns a
nil slice (error, or a block filled with whitespace/line-breaks only).
The scanning loop consumes at least one input byte per fuel unit, so the
`length + 1` fuel never runs out. -/
def ReadStringBlockAfterQuotes (s : Bytes) :
    Option Bytes × Nat × Bytes × Option PErr :=
  blockAux s (s.length + 1) s 0 ⟨0, false, 0, false⟩ .norm

/-- A byte `bytes.TrimSpace` removes (Go's asciiSpace set).  The embedding
is exact for documents without multi-byte Unicode whitespace, which never
occurs in the inputs considered here. -/
def isTrimSpaceByte (b : Nat) : Bool :=
  b == 32 || b == 9 || b == 10 || b == 11 || b == 12 || b == 13

/-- Whether `len(bytes.TrimSpace(line)) == 0` in Go. -/
def lineIsBlank (line : Bytes) : Bool := line.all isTrimSpaceByte

/-- The descending index loop of Go `TrimEmptyLinesSuffix`: the first
argument is `i + 1` for current index `i` (`0` means the loop is done),
the second is the current `e`; the result is the final `e`. -/
def trimAux (s : Bytes) : Nat → Nat → Nat
  | 0, e => e
  | i + 1, e =>
    if s.getD i 0 == 10 then
      let line := (s.drop (i + 1)).take (e - (i + 1))
      if lineIsBlank line then trimAux s i i else e
    else if i == 0 then
      let line := s.take e
      if lineIsBlank line then 0 else e
    else trimAux s i e

/-- Go `TrimEmptyLinesSuffix`: remove trailing lines that contain only
whitespace. -/
def TrimEmptyLinesSuffix (s : Bytes) : Bytes :=
  s.take (trimAux s s.length s.length)

/-- The continuation-line loop of Go `IterateBlockStringLines` (the `for
i++; i < len(s); i++` loop).  The first `Nat` is fuel, at least one unit
per line; since every line consumes at least one byte, `length + 1` fuel
always suffices and is what `IterateBlockStringLines` passes. -/
def iterContAux (pl : Nat) : Nat → Bytes → Chunks
  | 0, _ => []
  | fuel + 1, rem =>
    if rem.isEmpty then []
    else
      let skipped := min pl (rem.takeWhile IsWhiteSpace).length
      let body := (rem.drop skipped).takeWhile (fun c => c != 10)
      let consumed := skipped + body.length
      match rem.drop consumed with
      | 10 :: rest2 =>
        (if pl ≤ consumed then [(rem.take (consumed + 1)).drop pl] else []) ++
          iterContAux pl fuel rest2
      | _ => if pl ≤ consumed then [(rem.take consumed).drop pl] else []

/-- Go `IterateBlockStringLines`: the lines of a block string body, first
line without prefix stripping and dropped when all-whitespace, subsequent
lines with up to `prefixLen` leading whitespace bytes stripped and dropped
when shorter than the prefix.  Yielded lines keep their line-break.  The
consumer in `ReadValue` never stops early, so the iterator is the plain
list of yielded lines. -/
def IterateBlockStringLines (s : Bytes) (prefixLen : Nat) : Chunks :=
  let firstBody := s.takeWhile (fun c => c != 10)
  let firstChunk : Chunks :=
    if firstBody.all IsWhiteSpace then []
    else if firstBody.length < s.length then [firstBody ++ [10]] else [firstBody]
  let rest := s.drop (firstBody.length + 1)
  firstChunk ++ iterContAux prefixLen (rest.length + 1) rest

/-! Keyword byte strings. -/

def tokQuery : Bytes := [113, 117, 101, 114, 121]
def tokMutation : Bytes := [109, 117, 116, 97, 116, 105, 111, 110]
def tokSubscription : Bytes := [115, 117, 98, 115, 99, 114, 105, 112, 116, 105, 111, 110]
def tokFragment : Bytes := [102, 114, 97, 103, 109, 101, 110, 116]
def tokOn : Bytes := [111, 110]
def tokNull : Bytes := [110, 117, 108, 108]
def tokTrue : Bytes := [116, 114, 117, 101]
def tokFalse : Bytes := [102, 97, 108, 115, 101]

/-- Go `ReadOperationType`.  The result is `(written chunks, operation
type, suffix, error)` with operation type `1/2/3` for the Go constants and
`0` on the error return.  The `{` branch executes `s[len("query"):]`
unconditionally, which panics (outer `none`) when the input is shorter
than five bytes; the empty input panics at `s[0]`. -/
def ReadOperationType (s : Bytes) : Option (Chunks × Nat × Bytes × Option PErr) :=
  if HasPrefix s tokQuery then some ([HPrefQuery], 1, s.drop 5, none)
  else
    match s with
    | [] => none
    | b :: _ =>
      if b == 123 then
        if 5 ≤ s.length then some ([HPrefQuery], 1, s.drop 5, none) else none
      else if HasPrefix s tokMutation then some ([HPrefMutation], 2, s.drop 8, none)
      else if HasPrefix s tokSubscription then
        some ([HPrefSubscription], 3, s.drop 12, none)
      else some ([], 0, s, some .tok)

/-- The closing step of Go `ReadType` (the block after the switch): an
optional `!` after ignorables, then the source span of the whole type. -/
def readTypeFinish (s : Bytes) (array : Bool) (suffix : Bytes) :
    Bytes × Bool × Bool × Bytes × Option PErr :=
  let s2 := SkipIgnorables suffix
  match s2 with
  | 33 :: rest =>
    (s.take (s.length - rest.length), false, array, rest, none)
  | _ =>
    (s.take (s.length - suffix.length), true, array, suffix, none)

/-- Go `ReadType`: a name or a bracketed element type, with the optional
non-null `!`.  Result `(typeDef, nullable, array, suffix, error)`.  The
recursion through `[` nesting is driven by fuel (first argument); fuel of
at least the input length always suffices. -/
def ReadType : Nat → Bytes → Option (Bytes × Bool × Bool × Bytes × Option PErr)
  | 0, _ => none
  | fuel + 1, s =>
    match s with
    | [] => some ([], true, false, s, some .eof)
    | b :: _ =>
      if IsNameStart b then
        match ReadName s with
        | (typeDef, suffix, some e) => some (typeDef, true, false, suffix, some e)
        | (_, suffix, none) => some (readTypeFinish s false suffix)
      else if b == 91 then
        let suffix0 := SkipIgnorables (s.drop 1)
        match ReadType fuel suffix0 with
        | none => none
        | some (_, _, _, suffix1, some e) => some ([], true, true, suffix1, some e)
        | some (_, _, _, suffix1, none) =>
          let suffix2 := SkipIgnorables suffix1
          match suffix2 with
          | [] => some ([], true, true, suffix2, some .eof)
          | c :: rest =>
            if c != 93 then some ([], true, true, suffix2, some .tok)
            else some (readTypeFinish s true rest)
      else some ([], true, false, s, some .tok)

/-! The mutually recursive grammar walkers.  Every function takes fuel as
its first argument and passes the predecessor to each call into the
block, so the recursion is structural on the fuel.  Fuel exhaustion and
Go panics are both the outer `none`; on every concrete document below a
`some` result is obtained with fuel that is far more than the input
length, hence fuel-independent.  Each result carries, first, the chunks
written to the digest (in write order, including writes that precede an
error return, exactly as the Go code behaves). -/

mutual

/-- Go `ReadValue`: one Value (null/boolean/variable/number/string/
block string/list/input object/enum).  Result `(written chunks, value,
value type, suffix, error)`; the value type numbers are the Go `iota`
constants (`ValueTypeInt` = 1 … `ValueTypeVariable` = 11, `0` on the
enum-name error path and on the initial EOF). -/
def ReadValue : Nat → Bytes → Option (Chunks × Bytes × Nat × Bytes × Option PErr)
  | 0, _ => none
  | fuel + 1, s =>
    match s with
    | [] => some ([], [], 0, s, some .eof)
    | b :: rest =>
      if HasPrefix s tokNull then
        some ([HPrefValueNull], s.take 4, 7, s.drop 4, none)
      else if HasPrefix s tokTrue then
        some ([HPrefValueTrue], s.take 4, 5, s.drop 4, none)
      else if HasPrefix s tokFalse then
        some ([HPrefValueFalse], s.take 5, 6, s.drop 5, none)
      else if b == 36 then
        -- '$' variable
        let s2 := SkipIgnorables rest
        match ReadName s2 with
        | (_, suffix, some e) => some ([], s2, 11, suffix, some e)
        | (_, suffix, none) =>
          let value := s2.take (s2.length - suffix.length)
          some ([HPrefValueVariable, value], value, 11, suffix, none)
      else if b == 45 || IsDigit b then
        match ReadIntValue s with
        | none => none
        | some (value, suffix, some e) => some ([], value, 1, suffix, some e)
        | some (value, suffix, none) =>
          if (match suffix with
              | c :: _ => c == 46 || c == 101 || c == 69
              | [] => false) then
            match ReadFloatAfterInteger suffix with
            | (_, suffix2, some e) => some ([], value, 2, suffix2, some e)
            | (_, suffix2, none) =>
              -- note: the digest receives `value`, the integer part only
              some ([HPrefValueFloat, value],
                s.take (s.length - suffix2.length), 2, suffix2, none)
          else some ([HPrefValueInteger, value], value, 1, suffix, none)
      else if b == 34 then
        if HasPrefix s [34, 34, 34] then
          match ReadStringBlockAfterQuotes (s.drop 3) with
          | (_, _, suffix, some e) => some ([], [], 4, suffix, some e)
          | (valOpt, prefixLen, suffix, none) =>
            let value :=
              match valOpt with
              | some _ =>
                TrimEmptyLinesSuffix ((s.drop 3).take (s.length - suffix.length - 6))
              | none => []
            some (HPrefValueString :: IterateBlockStringLines value prefixLen,
              value, 4, suffix, none)
        else
          match ReadStringLineAfterQuotes (s.drop 1) with
          | (_, suffix, some e) => some ([], [], 3, suffix, some e)
          | (_, suffix, none) =>
            let value := (s.drop 1).take (s.length - suffix.length - 2)
            some ([HPrefValueString, value], value, 3, suffix, none)
      else if b == 91 then
        -- '[' list value; marker written before any element
        let suffix0 := SkipIgnorables rest
        match suffix0 with
        | 93 :: rest2 =>
          -- immediately-empty list: no ListEnd marker is written here
          some ([HPrefValueList], s.take (s.length - rest2.length), 9, rest2, none)
        | _ =>
          match ReadValueListLoop fuel s suffix0 with
          | none => none
          | some (outL, v, vt, sfx, err) =>
            some (HPrefValueList :: outL, v, vt, sfx, err)
      else if b == 123 then
        -- '{' input object; marker written before any field
        let suffix0 := SkipIgnorables rest
        match suffix0 with
        | 125 :: rest2 =>
          -- immediately-empty object: no InputObjectEnd marker written here
          some ([HPrefValueInputObject], s.take (s.length - rest2.length), 10,
            rest2, none)
        | _ =>
          match ReadValueObjectLoop fuel s suffix0 with
          | none => none
          | some (outL, v, vt, sfx, err) =>
            some (HPrefValueInputObject :: outL, v, vt, sfx, err)
      else
        -- enum value; the Go code writes the marker and the (possibly
        -- empty) name even when ReadName failed
        match ReadName s with
        | (value, suffix, some e) =>
          some ([HPrefValueEnum, value], value, 0, suffix, some e)
        | (value, suffix, none) =>
          some ([HPrefValueEnum, value], value, 8, suffix, none)

/-- The element loop of the `'['` branch of Go `ReadValue`.  `s` is the
slice at the opening bracket (for the result span), `suffix` the cursor
at the loop head. -/
def ReadValueListLoop (fuel : Nat) (s suffix : Bytes) :
    Option (Chunks × Bytes × Nat × Bytes × Option PErr) :=
  match fuel with
  | 0 => none
  | fuel + 1 =>
    match suffix with
    | [] => some ([], [], 9, suffix, some .eof)
    | _ =>
      match ReadValue fuel suffix with
      | none => none
      | some (outV, _, _, suffix2, some e) => some (outV, [], 9, suffix2, some e)
      | some (outV, _, _, suffix2, none) =>
        let suffix3 := SkipIgnorables suffix2
        match suffix3 with
        | [] => some (outV, [], 9, suffix3, some .eof)
        | 93 :: rest2 =>
          some (outV ++ [HPrefValueListEnd],
            s.take (s.length - rest2.length), 9, rest2, none)
        | _ =>
          match ReadValueListLoop fuel s suffix3 with
          | none => none
          | some (outR, v, vt, sfx, err) => some (outV ++ outR, v, vt, sfx, err)

/-- The field loop of the `'{'` branch of Go `ReadValue` (ObjectField
sequence). -/
def ReadValueObjectLoop (fuel : Nat) (s suffix : Bytes) :
    Option (Chunks × Bytes × Nat × Bytes × Option PErr) :=
  match fuel with
  | 0 => none
  | fuel + 1 =>
    match suffix with
    | [] => some ([], [], 10, suffix, some .eof)
    | _ =>
      match ReadName suffix with
      | (_, suffix1, some e) => some ([], [], 10, suffix1, some e)
      | (name, suffix1, none) =>
        let out1 : Chunks := [HPrefValueInputObjectField, name]
        let suffix2 := SkipIgnorables suffix1
        match suffix2 with
        | [] => some (out1, [], 10, suffix2, some .eof)
        | c :: rest1 =>
          if c != 58 then some (out1, [], 10, suffix2, some .tok)
          else
            let suffix3 := SkipIgnorables rest1
            match ReadValue fuel suffix3 with
            | none => none
            | some (outV, _, _, suffix4, some e) =>
              some (out1 ++ outV, [], 10, suffix4, some e)
            | some (outV, _, _, suffix4, none) =>
              let suffix5 := SkipIgnorables suffix4
              match suffix5 with
              | [] => some (out1 ++ outV, [], 10, suffix5, some .eof)
              | 125 :: rest2 =>
                some (out1 ++ outV ++ [HPrefInputObjectEnd],
                  s.take (s.length - rest2.length), 10, rest2, none)
              | _ =>
                match ReadValueObjectLoop fuel s suffix5 with
                | none => none
                | some (outR, v, vt, sfx, err) =>
                  some (out1 ++ outV ++ outR, v, vt, sfx, err)

/-- Go `ReadArguments`: `(` name `:` value … `)`.  Result `(written
chunks, arguments span, suffix, error)`. -/
def ReadArguments (fuel : Nat) (s : Bytes) :
    Option (Chunks × Bytes × Bytes × Option PErr) :=
  match fuel with
  | 0 => none
  | fuel + 1 =>
    match ReadToken s [40] with
    | (suffix0, some e) => some ([], [], suffix0, some e)
    | (_, none) =>
      -- the Go code re-derives the suffix as s[1:] after the token check
      let suffix1 := SkipIgnorables (s.drop 1)
      ReadArgumentsLoop fuel s suffix1

/-- The argument loop of Go `ReadArguments`. -/
def ReadArgumentsLoop (fuel : Nat) (s suffix : Bytes) :
    Option (Chunks × Bytes × Bytes × Option PErr) :=
  match fuel with
  | 0 => none
  | fuel + 1 =>
    match ReadName suffix with
    | (_, suffix1, some e) => some ([], [], suffix1, some e)
    | (name, suffix1, none) =>
      let out1 : Chunks := [HPrefArgument, name]
      let suffix2 := SkipIgnorables suffix1
      match ReadToken suffix2 [58] with
      | (suffix3, some e) => some (out1, [], suffix3, some e)
      | (suffix3, none) =>
        let suffix4 := SkipIgnorables suffix3
        match ReadValue fuel suffix4 with
        | none => none
        | some (outV, _, _, suffix5, some e) =>
          some (out1 ++ outV, [], suffix5, some e)
        | some (outV, _, _, suffix5, none) =>
          let suffix6 := SkipIgnorables suffix5
          match suffix6 with
          | [] => some (out1 ++ outV, [], suffix6, some .eof)
          | 41 :: rest2 =>
            some (out1 ++ outV, s.take (s.length - rest2.length), rest2, none)
          | _ =>
            match ReadArgumentsLoop fuel s suffix6 with
            | none => none
            | some (outR, sp, sfx, err) => some (out1 ++ outV ++ outR, sp, sfx, err)

/-- Go `ReadDirectives`: zero or more `@name` with optional arguments.
Result `(written chunks, directives span, suffix, error)`. -/
def ReadDirectives (fuel : Nat) (s : Bytes) :
    Option (Chunks × Bytes × Bytes × Option PErr) :=
  match fuel with
  | 0 => none
  | fuel + 1 => ReadDirectivesLoop fuel s s

/-- The directive loop of Go `ReadDirectives`. -/
def ReadDirectivesLoop (fuel : Nat) (s suffix : Bytes) :
    Option (Chunks × Bytes × Bytes × Option PErr) :=
  match fuel with
  | 0 => none
  | fuel + 1 =>
    match suffix with
    | [] => some ([], s.take (s.length - suffix.length), suffix, none)
    | b :: rest =>
      if b != 64 then some ([], s.take (s.length - suffix.length), suffix, none)
      else
        let suffix1 := SkipIgnorables rest
        match ReadName suffix1 with
        | (_, suffix2, some e) => some ([], [], suffix2, some e)
        | (name, suffix2, none) =>
          let out1 : Chunks := [HPrefDirective, name]
          let suffix3 := SkipIgnorables suffix2
          match suffix3 with
          | [] => some (out1, [], suffix3, some .eof)
          | c :: _ =>
            if c == 40 then
              match ReadArguments fuel suffix3 with
              | none => none
              | some (outA, _, suffix4, some e) =>
                some (out1 ++ outA, [], suffix4, some e)
              | some (outA, _, suffix4, none) =>
                let suffix5 := SkipIgnorables suffix4
                match ReadDirectivesLoop fuel s suffix5 with
                | none => none
                | some (outR, sp, sfx, err) =>
                  some (out1 ++ outA ++ outR, sp, sfx, err)
            else
              let suffix5 := SkipIgnorables suffix3
              match ReadDirectivesLoop fuel s suffix5 with
              | none => none
              | some (outR, sp, sfx, err) => some (out1 ++ outR, sp, sfx, err)

/-- Go `ReadSelectionSet`: `{` selections `}`.  Result `(written chunks,
suffix, error)`. -/
def ReadSelectionSet (fuel : Nat) (s : Bytes) :
    Option (Chunks × Bytes × Option PErr) :=
  match fuel with
  | 0 => none
  | fuel + 1 =>
    match ReadToken s [123] with
    | (suffix0, some e) => some ([], suffix0, some e)
    | (_, none) =>
      let suffix1 := SkipIgnorables (s.drop 1)
      match ReadSelectionSetLoop fuel suffix1 with
      | none => none
      | some (outL, sfx, err) => some (HPrefSelectionSet :: outL, sfx, err)

/-- One pass of the selection loop of Go `ReadSelectionSet` (one
selection, then the `}`/continue check). -/
def ReadSelectionSetLoop (fuel : Nat) (s : Bytes) :
    Option (Chunks × Bytes × Option PErr) :=
  match fuel with
  | 0 => none
  | fuel + 1 =>
    if HasPrefix s [46, 46, 46] then
      let s1 := SkipIgnorables (s.drop 3)
      if decide (3 < s1.length) && HasPrefix s1 tokOn &&
          IsIgnorableByte (s1.getD 2 0) then
        -- inline fragment with a type condition
        let s2 := SkipIgnorables (s1.drop 3)
        match ReadName s2 with
        | (_, s3, some e) => some ([], s3, some e)
        | (typeName, s3, none) =>
          let out1 : Chunks := [HPrefInlineFragment, HPrefType, typeName]
          let s4 := SkipIgnorables s3
          match ReadDirectives fuel s4 with
          | none => none
          | some (outD, _, s5, some e) => some (out1 ++ outD, s5, some e)
          | some (outD, _, s5, none) =>
            let s6 := SkipIgnorables s5
            match ReadSelectionSet fuel s6 with
            | none => none
            | some (outS, s7, some e) => some (out1 ++ outD ++ outS, s7, some e)
            | some (outS, s7, none) =>
              selEndCheck fuel (out1 ++ outD ++ outS) (SkipIgnorables s7)
      else if (match s1 with
          | c :: _ => IsNameStart c
          | [] => false) then
        -- fragment spread
        match ReadName s1 with
        | (_, s2, some e) => some ([], s2, some e)
        | (fragName, s2, none) =>
          let out1 : Chunks := [HPrefFragmentSpread, fragName]
          let s3 := SkipIgnorables s2
          match ReadDirectives fuel s3 with
          | none => none
          | some (outD, _, s4, some e) => some (out1 ++ outD, s4, some e)
          | some (outD, _, s4, none) =>
            selEndCheck fuel (out1 ++ outD) (SkipIgnorables s4)
      else
        -- inline fragment without type condition
        let out1 : Chunks := [HPrefInlineFragment]
        match ReadDirectives fuel s1 with
        | none => none
        | some (outD, _, s2, some e) => some (out1 ++ outD, s2, some e)
        | some (outD, _, s2, none) =>
          let s3 := SkipIgnorables s2
          match ReadSelectionSet fuel s3 with
          | none => none
          | some (outS, s4, some e) => some (out1 ++ outD ++ outS, s4, some e)
          | some (outS, s4, none) =>
            selEndCheck fuel (out1 ++ outD ++ outS) (SkipIgnorables s4)
    else
      -- field (name, optional alias, arguments, directives, selections)
      match ReadName s with
      | (_, s1, some e) => some ([], s1, some e)
      | (name, s1, none) =>
        let out1 : Chunks := [HPrefField, name]
        let s2 := SkipIgnorables s1
        match s2 with
        | [] => some (out1, s2, some .eof)
        | c :: rest =>
          if c == 58 then
            let s3 := SkipIgnorables rest
            match ReadName s3 with
            | (_, s4, some e) => some (out1, s4, some e)
            | (aliased, s4, none) =>
              selFieldArgs fuel (out1 ++ [HPrefFieldAliasedName, aliased])
                (SkipIgnorables s4)
          else selFieldArgs fuel out1 s2

/-- The tail of the field branch of Go `ReadSelectionSet`: optional
arguments, then directives, optional nested selection set, and the
loop-end check. -/
def selFieldArgs (fuel : Nat) (out : Chunks) (s : Bytes) :
    Option (Chunks × Bytes × Option PErr) :=
  match fuel with
  | 0 => none
  | fuel + 1 =>
    match s with
    | [] => some (out, s, some .eof)
    | c :: _ =>
      if c == 40 then
        match ReadArguments fuel s with
        | none => none
        | some (outA, _, s1, some e) => some (out ++ outA, s1, some e)
        | some (outA, _, s1, none) =>
          selFieldDirectives fuel (out ++ outA) (SkipIgnorables s1)
      else selFieldDirectives fuel out s

/-- Directives, optional nested selection set and the loop-end check of
the field branch of Go `ReadSelectionSet`. -/
def selFieldDirectives (fuel : Nat) (out : Chunks) (s : Bytes) :
    Option (Chunks × Bytes × Option PErr) :=
  match fuel with
  | 0 => none
  | fuel + 1 =>
    match ReadDirectives fuel s with
    | none => none
    | some (outD, _, s1, some e) => some (out ++ outD, s1, some e)
    | some (outD, _, s1, none) =>
      let s2 := SkipIgnorables s1
      match s2 with
      | [] => some (out ++ outD, s2, some .eof)
      | c :: _ =>
        if c == 123 then
          match ReadSelectionSet fuel s2 with
          | none => none
          | some (outS, s3, some e) => some (out ++ outD ++ outS, s3, some e)
          | some (outS, s3, none) =>
            selEndCheck fuel (out ++ outD ++ outS) (SkipIgnorables s3)
        else selEndCheck fuel (out ++ outD) (SkipIgnorables s2)

/-- The loop-end check of Go `ReadSelectionSet`: `}` closes the set
(writing the end marker), anything else continues the loop. -/
def selEndCheck (fuel : Nat) (out : Chunks) (s : Bytes) :
    Option (Chunks × Bytes × Option PErr) :=
  match fuel with
  | 0 => none
  | fuel + 1 =>
    match s with
    | [] => some (out, s, some .eof)
    | c :: rest =>
      if c == 125 then some (out ++ [HPrefSelectionSetEnd], rest, none)
      else
        match ReadSelectionSetLoop fuel s with
        | none => none
        | some (outR, sfx, err) => some (out ++ outR, sfx, err)

/-- Go `ReadVariableDefinitionsAfterParenthesis`: `$` name `:` type
[`=` value] [directives] … `)`.  The Go loop head reads `s[0]`
unconditionally, so the empty input panics (`none`).  Note the ReadName
error branch: the Go source returns `s, nil` there (source line
`return s, nil`), silently dropping the error. -/
def ReadVariableDefinitionsAfterParenthesis (fuel : Nat) (s : Bytes) :
    Option (Chunks × Bytes × Option PErr) :=
  match fuel with
  | 0 => none
  | fuel + 1 =>
    match s with
    | [] => none
    | b :: rest =>
      if b != 36 then some ([], s, some .tok)
      else
        let s1 := SkipIgnorables rest
        match ReadName s1 with
        | (_, s2, some _) =>
          -- faithful to the source: the error is replaced by nil
          some ([], s2, none)
        | (name, s2, none) =>
          let out1 : Chunks := [HPrefVariableDefinition, name]
          let s3 := SkipIgnorables s2
          match ReadToken s3 [58] with
          | (s4, some e) => some (out1, s4, some e)
          | (s4, none) =>
            let s5 := SkipIgnorables s4
            match ReadType fuel s5 with
            | none => none
            | some (_, _, _, s6, some e) => some (out1, s6, some e)
            | some (typeDec, _, _, s6, none) =>
              let s7 := SkipIgnorables s6
              let out2 := out1 ++ [HPrefType, typeDec]
              match s7 with
              | [] => some (out2, s7, some .eof)
              | c :: rest2 =>
                if c == 61 then
                  let s8 := SkipIgnorables rest2
                  match ReadValue fuel s8 with
                  | none => none
                  | some (outV, _, _, s9, some e) =>
                    some (out2 ++ outV, s9, some e)
                  | some (outV, _, _, s9, none) =>
                    varDefsTail fuel (out2 ++ outV) (SkipIgnorables s9)
                else varDefsTail fuel out2 s7

/-- The optional-directives and `)`-check tail of the loop of Go
`ReadVariableDefinitionsAfterParenthesis`. -/
def varDefsTail (fuel : Nat) (out : Chunks) (s : Bytes) :
    Option (Chunks × Bytes × Option PErr) :=
  match fuel with
  | 0 => none
  | fuel + 1 =>
    match ReadDirectives fuel s with
    | none => none
    | some (outD, _, s1, some e) => some (out ++ outD, s1, some e)
    | some (outD, _, s1, none) =>
      let s2 := SkipIgnorables s1
      match s2 with
      | [] => some (out ++ outD, s2, some .eof)
      | c :: rest =>
        if c == 41 then some (out ++ outD, rest, none)
        else
          match ReadVariableDefinitionsAfterParenthesis fuel s2 with
          | none => none
          | some (outR, sfx, err) => some (out ++ outD ++ outR, sfx, err)

/-- Go `ReadOperationDefinition`: operation-type keyword, optional name,
optional variable definitions, optional directives, selection set. -/
def ReadOperationDefinition (fuel : Nat) (s : Bytes) :
    Option (Chunks × Bytes × Option PErr) :=
  match fuel with
  | 0 => none
  | fuel + 1 =>
    match ReadOperationType s with
    | none => none
    | some (outOT, _, s1, some e) => some (outOT, s1, some e)
    | some (outOT, _, s1, none) =>
      let s2 := SkipIgnorables s1
      match s2 with
      | [] => some (outOT, s2, some .eof)
      | b :: _ =>
        if IsNameStart b then
          match ReadName s2 with
          | (_, s3, some e) => some (outOT, s3, some e)
          | (name, s3, none) =>
            -- the operation name is written raw, with no marker
            let out1 := outOT ++ [name]
            let s4 := SkipIgnorables s3
            match s4 with
            | [] => some (out1, s4, some .eof)
            | _ => opAfterName fuel out1 s4
        else opAfterName fuel outOT s2

/-- Optional variable definitions, then directives and the selection set
of Go `ReadOperationDefinition`. -/
def opAfterName (fuel : Nat) (out : Chunks) (s : Bytes) :
    Option (Chunks × Bytes × Option PErr) :=
  match fuel with
  | 0 => none
  | fuel + 1 =>
    match s with
    | 40 :: rest =>
      let s1 := SkipIgnorables rest
      match s1 with
      | [] => some (out, s1, some .eof)
      | _ =>
        match ReadVariableDefinitionsAfterParenthesis fuel s1 with
        | none => none
        | some (outV, s2, some e) => some (out ++ outV, s2, some e)
        | some (outV, s2, none) => opDirectives fuel (out ++ outV) (SkipIgnorables s2)
    | _ => opDirectives fuel out s

/-- Optional directives then the selection set of Go
`ReadOperationDefinition`. -/
def opDirectives (fuel : Nat) (out : Chunks) (s : Bytes) :
    Option (Chunks × Bytes × Option PErr) :=
  match fuel with
  | 0 => none
  | fuel + 1 =>
    match ReadDirectives fuel s with
    | none => none
    | some (outD, _, s1, some e) => some (out ++ outD, s1, some e)
    | some (outD, _, s1, none) =>
      let s2 := SkipIgnorables s1
      match ReadSelectionSet fuel s2 with
      | none => none
      | some (outS, s3, err) => some (out ++ outD ++ outS, s3, err)

/-- Go `ReadDefinition`: anonymous operation (`{`), fragment definition
(`fragment` keyword) or named operation. -/
def ReadDefinition (fuel : Nat) (s : Bytes) :
    Option (Chunks × Bytes × Option PErr) :=
  match fuel with
  | 0 => none
  | fuel + 1 =>
    match s with
    | [] => some ([], s, some .eof)
    | b :: _ =>
      if b == 123 then
        match ReadSelectionSet fuel s with
        | none => none
        | some (outS, sfx, err) => some (HPrefQuery :: outS, sfx, err)
      else if HasPrefix s tokFragment then
        let s1 := SkipIgnorables (s.drop 8)
        match ReadName s1 with
        | (_, suffix1, some e) => some ([], suffix1, some e)
        | (name, suffix1, none) =>
          if name == tokOn then some ([], s1, some .tok)
          else
            let suffix2 := SkipIgnorables suffix1
            match ReadToken suffix2 tokOn with
            | (suffix3, some e) => some ([], suffix3, some e)
            | (suffix3, none) =>
              let suffix4 := SkipIgnorables suffix3
              match ReadName suffix4 with
              | (_, suffix5, some e) => some ([], suffix5, some e)
              | (typeDec, suffix5, none) =>
                let suffix6 := SkipIgnorables suffix5
                let out1 : Chunks :=
                  [HPrefFragmentDefinition, name, HPrefType, typeDec]
                match ReadDirectives fuel suffix6 with
                | none => none
                | some (outD, _, suffix7, some e) =>
                  some (out1 ++ outD, suffix7, some e)
                | some (outD, _, suffix7, none) =>
                  let suffix8 := SkipIgnorables suffix7
                  match ReadSelectionSet fuel suffix8 with
                  | none => none
                  | some (outS, sfx, err) => some (out1 ++ outD ++ outS, sfx, err)
      else ReadOperationDefinition fuel s

/-- Go `ReadDocument`: skip ignorables, require input, then definitions
until the input is exhausted.  Result `(written chunks, error)`. -/
def ReadDocument (fuel : Nat) (s : Bytes) : Option (Chunks × Option PErr) :=
  match fuel with
  | 0 => none
  | fuel + 1 =>
    let s1 := SkipIgnorables s
    match s1 with
    | [] => some ([], some .eof)
    | _ => ReadDocumentLoop fuel s1

/-- The definition loop of Go `ReadDocument`. -/
def ReadDocumentLoop (fuel : Nat) (s : Bytes) : Option (Chunks × Option PErr) :=
  match fuel with
  | 0 => none
  | fuel + 1 =>
    if s.length < 1 then some ([], none)
    else
      match ReadDefinition fuel s with
      | none => none
      | some (outD, _, some e) => some (outD, some e)
      | some (outD, sfx, none) =>
        match ReadDocumentLoop fuel (SkipIgnorables sfx) with
        | none => none
        | some (outR, err) => some (outD ++ outR, err)

end

/-- Go `AppendQueryHash` (package gqlhash): reset the digest, skip
leading ignorables, require input, walk the document.  The result chunks
are everything written to the digest; on a parse error Go returns a nil
buffer and the error, modelled as `([], some e)`. -/
def AppendQueryHash (fuel : Nat) (s : Bytes) : Option (Chunks × Option PErr) :=
  let s1 := SkipIgnorables s
  if s1.length < 1 then some ([], some .eof)
  else
    match ReadDocument fuel s1 with
    | none => none
    | some (_, some e) => some ([], some e)
    | some (out, none) => some (out, none)

/-! Concrete documents used by the claims, as byte strings.  Each
definition names the ASCII text it encodes. -/

/-- The document `mutation GQL { addStandard ( name : "GraphQL" ) }`. -/
def dC8a : Bytes :=
  [109, 117, 116, 97, 116, 105, 111, 110, 32, 71, 81, 76, 32, 123, 32, 97,
   100, 100, 83, 116, 97, 110, 100, 97, 114, 100, 32, 40, 32, 110, 97, 109,
   101, 32, 58, 32, 34, 71, 114, 97, 112, 104, 81, 76, 34, 32, 41, 32, 125]

/-- The document `mutation GQL{addStandard(name:"GraphQL")}`. -/
def dC8b : Bytes :=
  [109, 117, 116, 97, 116, 105, 111, 110, 32, 71, 81, 76, 123, 97, 100, 100,
   83, 116, 97, 110, 100, 97, 114, 100, 40, 110, 97, 109, 101, 58, 34, 71,
   114, 97, 112, 104, 81, 76, 34, 41, 125]

/-- The digest write sequence both C8 documents produce: Mutation marker,
`GQL`, SelectionSet marker, Field marker, `addStandard`, Argument marker,
`name`, String marker, `GraphQL`, SelectionSetEnd marker. -/
def streamC8 : Chunks :=
  [HPrefMutation, [71, 81, 76], HPrefSelectionSet, HPrefField,
   [97, 100, 100, 83, 116, 97, 110, 100, 97, 114, 100], HPrefArgument,
   [110, 97, 109, 101], HPrefValueString, [71, 114, 97, 112, 104, 81, 76],
   HPrefSelectionSetEnd]

/-- The document `{... on T{f}}` (inline fragment on T). -/
def dC1a : Bytes :=
  [123, 46, 46, 46, 32, 111, 110, 32, 84, 123, 102, 125, 125]

/-- The document `{... on#x` line-break `T{f}}`: the same token sequence
as `dC1a`, the separator between `on` and `T` now being a comment. -/
def dC1b : Bytes :=
  [123, 46, 46, 46, 32, 111, 110, 35, 120, 10, 84, 123, 102, 125, 125]

/-- The digest stream of `dC1a`: an inline fragment on type T. -/
def streamInlineT : Chunks :=
  [HPrefQuery, HPrefSelectionSet, HPrefInlineFragment, HPrefType, [84],
   HPrefSelectionSet, HPrefField, [102], HPrefSelectionSetEnd,
   HPrefSelectionSetEnd]

/-- The digest stream of `dC1b` and `dC6`: a fragment spread named `on`
followed by a field `T` with subselection `f`. -/
def streamSpreadOn : Chunks :=
  [HPrefQuery, HPrefSelectionSet, HPrefFragmentSpread, [111, 110],
   HPrefField, [84], HPrefSelectionSet, HPrefField, [102],
   HPrefSelectionSetEnd, HPrefSelectionSetEnd]

/-- The document `{... on#c` line-break `T{f}}` from claim C6. -/
def dC6 : Bytes :=
  [123, 46, 46, 46, 32, 111, 110, 35, 99, 10, 84, 123, 102, 125, 125]

/-- The document `{...onSomething}` (fragment spread whose name starts
with `on`). -/
def dC6spread : Bytes :=
  [123, 46, 46, 46, 111, 110, 83, 111, 109, 101, 116, 104, 105, 110, 103, 125]

/-- The document `{... on`, one byte `b`, then `T{f}}`. -/
def dOnSep (b : Nat) : Bytes :=
  [123, 46, 46, 46, 32, 111, 110] ++ b :: [84, 123, 102, 125, 125]

/-- The document `{f(x:1.0)}`. -/
def dC2a : Bytes := [123, 102, 40, 120, 58, 49, 46, 48, 41, 125]

/-- The document `{f(x:1.00)}`. -/
def dC2b : Bytes := [123, 102, 40, 120, 58, 49, 46, 48, 48, 41, 125]

/-- The digest stream of both C2 documents: after the Float marker only
the integer part `1` is written. -/
def streamC2 : Chunks :=
  [HPrefQuery, HPrefSelectionSet, HPrefField, [102], HPrefArgument, [120],
   HPrefValueFloat, [49], HPrefSelectionSetEnd]

/-- The document `query($ {f}` from claim C3. -/
def dC3 : Bytes := [113, 117, 101, 114, 121, 40, 36, 32, 123, 102, 125]

/-- The digest stream the code produces for `dC3`: identical to the one
of the plain document `{f}`. -/
def streamC3 : Chunks :=
  [HPrefQuery, HPrefSelectionSet, HPrefField, [102], HPrefSelectionSetEnd]

/-- The document `{f(x:[])}`. -/
def dC4a : Bytes := [123, 102, 40, 120, 58, 91, 93, 41, 125]

/-- The document `{f(x:[[],[[]]])}`. -/
def dC4b : Bytes :=
  [123, 102, 40, 120, 58, 91, 91, 93, 44, 91, 91, 93, 93, 93, 41, 125]

/-- The document `{f(x:[[[],[]]])}`: a different list structure than
`dC4b`. -/
def dC4c : Bytes :=
  [123, 102, 40, 120, 58, 91, 91, 91, 93, 44, 91, 93, 93, 93, 41, 125]

/-- The input `query`. -/
def dC7query : Bytes := [113, 117, 101, 114, 121]

/-- The input `{`. -/
def dC7brace : Bytes := [123]

/-- The input consisting of one double quote. -/
def dC7quote : Bytes := [34]

/-- The input of a double quote, backslash, `u12`. -/
def dC7u12 : Bytes := [34, 92, 117, 49, 50]

/-- The input `fragment on X{f}`. -/
def dC7frag : Bytes :=
  [102, 114, 97, 103, 109, 101, 110, 116, 32, 111, 110, 32, 88, 123, 102, 125]

/-- The input `{f(x:?)}`. -/
def dC7arg : Bytes := [123, 102, 40, 120, 58, 63, 41, 125]

/-- The content of the C5 block string with indentation `n`: line-break,
`n` spaces, `foo`, line-break, `n` spaces. -/
def contentA (n : Nat) : Bytes :=
  10 :: (List.replicate n 32 ++ (102 :: 111 :: 111 :: 10 :: List.replicate n 32))

/-- The C5 block string value for indentation `n`: triple quote,
line-break, `n` spaces, `foo`, line-break, `n` spaces, triple quote. -/
def bsIndent (n : Nat) : Bytes := [34, 34, 34] ++ (contentA n ++ [34, 34, 34])

/-- C8: the two documents `mutation GQL { addStandard ( name :
"GraphQL" ) }` and `mutation GQL{addStandard(name:"GraphQL")}` feed the
identical write sequence to the digest: Mutation marker, `GQL`,
SelectionSet marker, Field marker, `addStandard`, Argument marker,
`name`, String marker, `GraphQL`, SelectionSetEnd marker. -/
theorem mutation_formatting_invariant_stream :
    AppendQueryHash 300 dC8a = some (streamC8, none) ∧
    AppendQueryHash 300 dC8b = some (streamC8, none) := by decide

/-- C1 (failing-input evaluation): the two documents `{... on T{f}}` and
`{... on#x` line-break `T{f}}` differ only in insignificant bytes (the
separator between the tokens `on` and `T`) and have the same token
sequence, yet the digest streams differ: the first parses as an inline
fragment on T, the second as a fragment spread named `on` plus a field
`T`, so the fingerprints differ. -/
theorem comment_after_on_changes_digest_stream :
    AppendQueryHash 300 dC1a = some (streamInlineT, none) ∧
    AppendQueryHash 300 dC1b = some (streamSpreadOn, none) ∧
    AppendQueryHash 300 dC1a ≠ AppendQueryHash 300 dC1b := by decide

/-- C6 (failing-input evaluation): `{... on#c` line-break `T{f}}` is NOT
read as an inline fragment (the InlineFragment marker never reaches the
digest); it parses as a fragment spread named `on` followed by a field
`T`, because the lookahead after `on` accepts only
whitespace/comma/line-break bytes, not the `#` of a comment.  A name
merely starting with `on` is read as a fragment spread, as claimed. -/
theorem on_comment_parses_as_fragment_spread :
    AppendQueryHash 300 dC6 = some (streamSpreadOn, none) ∧
    HPrefInlineFragment ∉ streamSpreadOn ∧
    AppendQueryHash 300 dC6spread =
      some ([HPrefQuery, HPrefSelectionSet, HPrefFragmentSpread,
        [111, 110, 83, 111, 109, 101, 116, 104, 105, 110, 103],
        HPrefSelectionSetEnd], none) := by decide

/-- C2 (failing-input evaluation): the documents `{f(x:1.0)}` and
`{f(x:1.00)}` feed the identical byte stream to the digest; after the
Float marker only the integer part `1` is written, not the full float
source text, so the two documents collide. -/
theorem float_digest_drops_fraction_bytes :
    AppendQueryHash 300 dC2a = some (streamC2, none) ∧
    AppendQueryHash 300 dC2b = some (streamC2, none) ∧
    streamC2.getD 6 [] = HPrefValueFloat ∧ streamC2.getD 7 [] = [49] := by decide

/-- C3 (failing-input evaluation): inside variable definitions the
ReadName failure on `{f}` (UnexpectedToken) is replaced by success: the
document `query($ {f}` parses without error and produces the same digest
stream as the plain document `{f}` would. -/
theorem vardef_name_error_swallowed :
    ReadName [123, 102, 125] = ([], [123, 102, 125], some PErr.tok) ∧
    ReadVariableDefinitionsAfterParenthesis 300 [36, 32, 123, 102, 125] =
      some ([], [123, 102, 125], none) ∧
    AppendQueryHash 300 dC3 = some (streamC3, none) := by decide

/-- C4 (failing-input evaluation): for the immediately-empty list in
`{f(x:[])}` only the List marker is written, with no ListEnd marker; as
a consequence the structurally different documents `{f(x:[[],[[]]])}`
and `{f(x:[[[],[]]])}` feed identical byte streams to the digest. -/
theorem empty_list_no_end_marker :
    AppendQueryHash 300 dC4a =
      some ([HPrefQuery, HPrefSelectionSet, HPrefField, [102], HPrefArgument,
        [120], HPrefValueList, HPrefSelectionSetEnd], none) ∧
    AppendQueryHash 300 dC4b = AppendQueryHash 300 dC4c ∧
    dC4b ≠ dC4c := by decide

/-- C7 counterexample: the one-byte input `"` (and likewise `"\u12`) is
classified by AppendQueryHash as UnexpectedToken, not EndOfInput as the
claim states: a document cannot begin with a string, so the operation
type dispatch fails on the quote byte itself. -/
theorem error_classification_counterexample :
    AppendQueryHash 300 dC7quote = some ([], some PErr.tok) ∧
    AppendQueryHash 300 dC7quote ≠ some ([], some PErr.eof) ∧
    AppendQueryHash 300 dC7u12 = some ([], some PErr.tok) := by decide

/-- C7 as amended: empty input and the inputs `query` and `{` (ending
mid-construct) yield EndOfInput; the malformed-but-complete inputs
`fragment on X{f}` and `{f(x:?)}` yield UnexpectedToken; the inputs `"`
and `"\u12`, whose first byte can begin no definition, also yield
UnexpectedToken. -/
theorem error_classification_amended :
    AppendQueryHash 300 [] = some ([], some PErr.eof) ∧
    AppendQueryHash 300 dC7query = some ([], some PErr.eof) ∧
    AppendQueryHash 300 dC7brace = some ([], some PErr.eof) ∧
    AppendQueryHash 300 dC7frag = some ([], some PErr.tok) ∧
    AppendQueryHash 300 dC7arg = some ([], some PErr.tok) ∧
    AppendQueryHash 300 dC7quote = some ([], some PErr.tok) ∧
    AppendQueryHash 300 dC7u12 = some ([], some PErr.tok) := by
  refine ⟨?_, ?_, ?_, ?_, ?_, ?_, ?_⟩ <;> decide

/-- C9: for a numeric literal whose exponent marker is followed by zero
digits (here `1.2e` followed by any non-digit, non-sign byte `b`),
ReadValue succeeds and classifies the value as a float with the value
span `1.2e`; whereas a `.` followed by zero digits (here `1.` followed
by a non-digit byte) makes ReadValue fail with UnexpectedToken. -/
theorem exponent_without_digits_accepted :
    (∀ (fuel b : Nat) (tail : Bytes), IsDigit b = false → (b == 43) = false →
      (b == 45) = false →
      ReadValue (fuel + 1) ([49, 46, 50, 101] ++ b :: tail) =
        some ([HPrefValueFloat, [49]], [49, 46, 50, 101], 2, b :: tail, none)) ∧
    (∀ (fuel b : Nat) (tail : Bytes), IsDigit b = false →
      ReadValue (fuel + 1) ([49, 46] ++ b :: tail) =
        some ([], [49], 2, b :: tail, some PErr.tok)) := by
  have e49 : IsDigit 49 = true := rfl
  have e46 : IsDigit 46 = false := rfl
  have e50 : IsDigit 50 = true := rfl
  have e101 : IsDigit 101 = false := rfl
  constructor
  · intro fuel b tail hd h43 h45
    simp [ReadValue, ReadIntValue, ReadFloatAfterInteger,
      ReadFloatAfterInteger.afterExpMarker, HasPrefix, tokNull, tokTrue,
      tokFalse, List.dropWhile, e49, e46, e50, e101, hd, h43, h45]
  · intro fuel b tail hd
    simp [ReadValue, ReadIntValue, ReadFloatAfterInteger, HasPrefix, tokNull,
      tokTrue, tokFalse, List.dropWhile, e49, e46, e50, e101, hd]

/-- C9 witness: the float case at `1.2e)` and the dot case at `1.)`. -/
theorem exponent_without_digits_accepted_witness :
    ReadValue 1 [49, 46, 50, 101, 41] =
      some ([HPrefValueFloat, [49]], [49, 46, 50, 101], 2, [41], none) ∧
    ReadValue 1 [49, 46, 41] = some ([], [49], 2, [41], some PErr.tok) :=
  ⟨exponent_without_digits_accepted.1 0 41 [] (by decide) (by decide) (by decide),
   exponent_without_digits_accepted.2 0 41 [] (by decide)⟩

/-- C10: for every input whose first byte is `{` (and which does not
start with the full keyword `query`), ReadOperationType classifies the
input as a query and unconditionally drops `len("query") = 5` bytes; for
any such input shorter than 5 bytes the Go slice `s[len("query"):]` is
out of bounds and the call panics (`none`), instead of returning a
result or an error. -/
theorem read_operation_type_brace_panics_when_short :
    (∀ rest : Bytes, (123 :: rest : Bytes).length < 5 →
      ReadOperationType (123 :: rest) = none) ∧
    (∀ rest : Bytes, 4 ≤ rest.length →
      ReadOperationType (123 :: rest) = some ([HPrefQuery], 1, rest.drop 4, none)) := by
  constructor
  · intro rest h
    simp only [List.length_cons] at h
    have h5 : ¬ (5 ≤ rest.length + 1) := by omega
    simp [ReadOperationType, HasPrefix, tokQuery, tokMutation, tokSubscription, h5]
  · intro rest h
    have h5 : 5 ≤ rest.length + 1 := by omega
    simp [ReadOperationType, HasPrefix, tokQuery, tokMutation, tokSubscription, h5]

/-- C10 witness: the 3-byte document `{x}` panics; the 5-byte input
`{x}ab` returns the query classification with the 5 bytes consumed. -/
theorem read_operation_type_brace_panics_when_short_witness :
    ReadOperationType [123, 120, 125] = none ∧
    ReadOperationType [123, 120, 125, 97, 98] = some ([HPrefQuery], 1, [], none) :=
  ⟨read_operation_type_brace_panics_when_short.1 [120, 125] (by decide),
   read_operation_type_brace_panics_when_short.2 [120, 125, 97, 98] (by decide)⟩

theorem blockAux_ws_replicate (s : Bytes) (k : Nat) :
    ∀ (fuel i c : Nat) (st : BState) (rem : Bytes),
      blockAux s (fuel + k) (List.replicate k 32 ++ rem) i st (.ws c) =
      blockAux s fuel rem (i + k) st (.ws (c + k)) := by
  induction k with
  | zero => intro fuel i c st rem; simp
  | succ k ih =>
    intro fuel i c st rem
    rw [show fuel + (k+1) = (fuel + k) + 1 from by omega, List.replicate_succ,
      List.cons_append]
    rw [show (blockAux s ((fuel + k) + 1) (32 :: (List.replicate k 32 ++ rem)) i st (.ws c))
        = blockAux s (fuel + k) (List.replicate k 32 ++ rem) (i + 1) st (.ws (c + 1)) from by
      simp [blockAux, IsWhiteSpace]]
    rw [ih]
    rw [show i + 1 + k = i + (k + 1) from by omega, show c + 1 + k = c + (k + 1) from by omega]

theorem setNWSNL_found (st : BState) (i : Nat) (h : st.fnwsFound = true) :
    setNWSNL st i = st := by simp [setNWSNL, h]

theorem blockAux_norm_nl (s : Bytes) (fuel i : Nat) (st : BState) (rest : Bytes) :
    blockAux s (fuel + 1) (10 :: rest) i st .norm =
    blockAux s fuel rest (i + 1) st (.ws 0) := by
  simp [blockAux]

theorem blockAux_norm_default (s : Bytes) (fuel i : Nat) (st : BState) (b : Nat)
    (rest : Bytes) (h34 : (b == 34) = false) (h92 : (b == 92) = false)
    (h10 : (b == 10) = false) (hws : IsWhiteSpace b = false) (hlt : ¬ (b < 32)) :
    blockAux s (fuel + 1) (b :: rest) i st .norm =
    blockAux s fuel rest (i + 1) (setNWSNL st i) .norm := by
  simp [blockAux, h34, h92, h10, hws, hlt]

theorem blockAux_ws_nonws_default (s : Bytes) (fuel i c : Nat) (st : BState)
    (b b1 b2 : Nat) (rest : Bytes) (hws : IsWhiteSpace b = false)
    (h34 : (b == 34) = false) (h92 : (b == 92) = false) (h10 : (b == 10) = false)
    (hlt : ¬ (b < 32)) (hlast : (b1 == 34 && b2 == 34) = false) :
    blockAux s (fuel + 1) (b :: b1 :: b2 :: rest) i st (.ws c) =
    blockAux s fuel (b1 :: b2 :: rest) (i + 1)
      (setNWSNL (pushPrefixLen (setNWSNL st i) c) i) .norm := by
  have hne10 : b ≠ 10 := by simpa using h10
  simp [blockAux, hws, h34, h92, h10, hne10, hlt, hlast]

theorem blockAux_ws_close (s : Bytes) (fuel i c : Nat) (st : BState) (rest : Bytes)
    (hfound : st.fnwsFound = true) (hne : (st.fnws != i) = true) :
    blockAux s (fuel + 1) (34 :: 34 :: 34 :: rest) i st (.ws c) =
    (some (s.take (i + 3)), st.prefixLen, s.drop (i + 3), none) := by
  simp [blockAux, IsWhiteSpace, setNWSNL, hfound, hne]

theorem blockScanShape (n : Nat) :
    blockAux
      (10 :: (List.replicate n 32 ++
        (102 :: 111 :: 111 :: 10 :: (List.replicate n 32 ++ [34, 34, 34]))))
      (2*n+8+1)
      (10 :: (List.replicate n 32 ++
        (102 :: 111 :: 111 :: 10 :: (List.replicate n 32 ++ [34, 34, 34]))))
      0 ⟨0, false, 0, false⟩ .norm =
    (some (10 :: (List.replicate n 32 ++
        (102 :: 111 :: 111 :: 10 :: (List.replicate n 32 ++ [34, 34, 34])))),
      n, [], none) := by
  set S : Bytes := 10 :: (List.replicate n 32 ++
    (102 :: 111 :: 111 :: 10 :: (List.replicate n 32 ++ [34, 34, 34]))) with hS
  have hlenS : S.length = 2*n+8 := by simp [hS]; omega
  rw [show (2*n+8+1) = (2*n+8)+1 from rfl, blockAux_norm_nl]
  rw [show 2*n+8 = (n+8)+n from by omega, blockAux_ws_replicate]
  rw [show (0:Nat)+1 = 1 from rfl]
  rw [show n+8 = (n+7)+1 from by omega]
  rw [blockAux_ws_nonws_default S (n+7) (1+n) (0+n) ⟨0, false, 0, false⟩ 102 111 111 _
    (by decide) (by decide) (by decide) (by decide) (by omega) (by decide)]
  rw [show setNWSNL (pushPrefixLen (setNWSNL ⟨0, false, 0, false⟩ (1+n)) (0+n)) (1+n)
      = (⟨n, true, n+1, true⟩ : BState) from by
    simp [setNWSNL, pushPrefixLen]; omega]
  rw [show 1+n+1 = n+2 from by omega, show n+7 = (n+6)+1 from by omega]
  rw [blockAux_norm_default S (n+6) (n+2) _ 111 _ (by decide) (by decide) (by decide)
    (by decide) (by omega)]
  rw [setNWSNL_found _ _ rfl]
  rw [show n+2+1 = n+3 from by omega, show n+6 = (n+5)+1 from by omega]
  rw [blockAux_norm_default S (n+5) (n+3) _ 111 _ (by decide) (by decide) (by decide)
    (by decide) (by omega)]
  rw [setNWSNL_found _ _ rfl]
  rw [show n+3+1 = n+4 from by omega, show n+5 = (n+4)+1 from by omega]
  rw [blockAux_norm_nl]
  rw [show n+4+1 = n+5 from by omega, show n+4 = 4+n from by omega,
    blockAux_ws_replicate]
  rw [show (4:Nat) = 3+1 from rfl]
  rw [blockAux_ws_close S 3 (n+5+n) (0+n) ⟨n, true, n+1, true⟩ [] rfl
    (by simp [bne]; omega)]
  rw [show n+5+n+3 = 2*n+8 from by omega]
  rw [List.take_of_length_le (by omega), List.drop_eq_nil_of_le (by omega)]


theorem pushPrefixLen_fnwsFound (st : BState) (c : Nat) :
    (pushPrefixLen st c).fnwsFound = st.fnwsFound := by
  unfold pushPrefixLen; split <;> rfl

theorem blockScanWsAux (s : Bytes) :
    ∀ (content : Bytes) (fuel i : Nat) (st : BState) (mode : BMode),
      content.all (fun b => b == 32 || b == 9 || b == 10) = true →
      st.fnwsFound = false →
      content.length < fuel →
      ∃ pl, blockAux s fuel (content ++ [34, 34, 34]) i st mode =
        (none, pl, s.drop (i + content.length + 3), none) := by
  intro content
  induction content with
  | nil =>
    intro fuel i st mode hall hf hfuel
    obtain ⟨f, rfl⟩ : ∃ f, fuel = f + 1 := ⟨fuel - 1, by omega⟩
    cases mode with
    | norm => exact ⟨st.prefixLen, by simp [blockAux, hf]⟩
    | ws c =>
      exact ⟨st.prefixLen, by simp [blockAux, setNWSNL, hf, IsWhiteSpace]⟩
  | cons b content ih =>
    intro fuel i st mode hall hf hfuel
    obtain ⟨f, rfl⟩ : ∃ f, fuel = f + 1 := ⟨fuel - 1, by omega⟩
    simp only [List.all_cons, Bool.and_eq_true] at hall
    have hb : b = 32 ∨ b = 9 ∨ b = 10 := by
      rcases hall.1 with h
      simp only [Bool.or_eq_true, beq_iff_eq] at h
      tauto
    have hcont := hall.2
    have hflt : content.length < f := by
      simp only [List.length_cons] at hfuel; omega
    have harith : ∀ pl : Nat,
        (none, pl, s.drop (i + 1 + content.length + 3), (none : Option PErr)) =
        ((none : Option Bytes), pl, s.drop (i + (content.length + 1) + 3),
          (none : Option PErr)) := by
      intro pl
      rw [show i + 1 + content.length + 3 = i + (content.length + 1) + 3 from by omega]
    cases mode with
    | norm =>
      rcases hb with h32 | h9 | h10
      · subst h32
        obtain ⟨pl, hpl⟩ := ih f (i + 1) st .norm hcont hf hflt
        refine ⟨pl, ?_⟩
        simp only [List.cons_append, List.length_cons]
        rw [show blockAux s (f+1) (32 :: (content ++ [34,34,34])) i st .norm
            = blockAux s f (content ++ [34,34,34]) (i+1) st .norm from by
          simp [blockAux, IsWhiteSpace]]
        rw [hpl]; exact harith pl
      · subst h9
        obtain ⟨pl, hpl⟩ := ih f (i + 1) st .norm hcont hf hflt
        refine ⟨pl, ?_⟩
        simp only [List.cons_append, List.length_cons]
        rw [show blockAux s (f+1) (9 :: (content ++ [34,34,34])) i st .norm
            = blockAux s f (content ++ [34,34,34]) (i+1) st .norm from by
          simp [blockAux, IsWhiteSpace]]
        rw [hpl]; exact harith pl
      · subst h10
        obtain ⟨pl, hpl⟩ := ih f (i + 1) st (.ws 0) hcont hf hflt
        refine ⟨pl, ?_⟩
        simp only [List.cons_append, List.length_cons]
        rw [show blockAux s (f+1) (10 :: (content ++ [34,34,34])) i st .norm
            = blockAux s f (content ++ [34,34,34]) (i+1) st (.ws 0) from by
          simp [blockAux, IsWhiteSpace]]
        rw [hpl]; exact harith pl
    | ws c =>
      rcases hb with h32 | h9 | h10
      · subst h32
        obtain ⟨pl, hpl⟩ := ih f (i + 1) st (.ws (c+1)) hcont hf hflt
        refine ⟨pl, ?_⟩
        simp only [List.cons_append, List.length_cons]
        rw [show blockAux s (f+1) (32 :: (content ++ [34,34,34])) i st (.ws c)
            = blockAux s f (content ++ [34,34,34]) (i+1) st (.ws (c+1)) from by
          simp [blockAux, IsWhiteSpace]]
        rw [hpl]; exact harith pl
      · subst h9
        obtain ⟨pl, hpl⟩ := ih f (i + 1) st (.ws (c+1)) hcont hf hflt
        refine ⟨pl, ?_⟩
        simp only [List.cons_append, List.length_cons]
        rw [show blockAux s (f+1) (9 :: (content ++ [34,34,34])) i st (.ws c)
            = blockAux s f (content ++ [34,34,34]) (i+1) st (.ws (c+1)) from by
          simp [blockAux, IsWhiteSpace]]
        rw [hpl]; exact harith pl
      · subst h10
        set st2 := (if (match content ++ ([34,34,34] : Bytes) with
            | b1 :: b2 :: _ => b1 == 34 && b2 == 34
            | _ => false) then st else pushPrefixLen st c) with hst2
        have hst2f : st2.fnwsFound = false := by
          rw [hst2]; split
          · exact hf
          · rw [pushPrefixLen_fnwsFound]; exact hf
        obtain ⟨pl, hpl⟩ := ih f (i + 1) st2 (.ws 0) hcont hst2f hflt
        refine ⟨pl, ?_⟩
        simp only [List.cons_append, List.length_cons]
        rw [show blockAux s (f+1) (10 :: (content ++ [34,34,34])) i st (.ws c)
            = blockAux s f (content ++ [34,34,34]) (i+1) st2 (.ws 0) from by
          simp only [blockAux, IsWhiteSpace]
          norm_num [hst2]]
        rw [hpl]; exact harith pl


theorem getD_replicate32 (m : Nat) : ∀ j : Nat,
    (List.replicate m (32 : Nat)).getD j 0 = if j < m then 32 else 0 := by
  induction m with
  | zero => intro j; simp
  | succ m ih =>
    intro j
    cases j with
    | zero => simp [List.replicate_succ]
    | succ j =>
      simp only [List.replicate_succ, List.getD_cons_succ, ih]
      by_cases h : j < m
      · simp [h, Nat.succ_lt_succ h]
      · have : ¬ (j + 1 < m + 1) := by omega
        simp [h, this]

theorem trimAux_skip (s : Bytes) (k : Nat) : ∀ (i e : Nat),
    (∀ j, i ≤ j → j < i + k → ((s.getD j 0 == 10) = false ∧ j ≠ 0)) →
    trimAux s (i + k) e = trimAux s i e := by
  induction k with
  | zero => intro i e _; rfl
  | succ k ih =>
    intro i e h
    have hj := h (i + k) (by omega) (by omega)
    rw [show i + (k + 1) = (i + k) + 1 from by omega]
    have hne : ((i + k) == 0) = false := by
      simp only [beq_eq_false_iff_ne, ne_eq]
      exact hj.2
    rw [show trimAux s ((i + k) + 1) e = trimAux s (i + k) e from by
      rw [trimAux, hj.1, hne]
      simp]
    exact ih i e (fun j h1 h2 => h j h1 (by omega))

theorem contentA_getD_mid (n j : Nat) (h1 : 1 ≤ j) (h2 : j ≤ 2*n+4) (h3 : j ≠ n+4) :
    ((contentA n).getD j 0 == 10) = false := by
  obtain ⟨j, rfl⟩ : ∃ j', j = j' + 1 := ⟨j - 1, by omega⟩
  unfold contentA
  rw [List.getD_cons_succ]
  by_cases hlt : j < n
  · rw [List.getD_append _ _ _ _ (by simp; omega), getD_replicate32]
    simp [hlt]
  · rw [List.getD_append_right _ _ _ _ (by simp; omega)]
    simp only [List.length_replicate]
    rcases (show j - n = 0 ∨ j - n = 1 ∨ j - n = 2 ∨ j - n = 3 ∨
        (4 ≤ j - n ∧ j - n ≤ n + 3) from by omega) with h | h | h | h | h
    · rw [h]; rfl
    · rw [h]; rfl
    · rw [h]; rfl
    · exfalso; omega
    · obtain ⟨j2, hj2⟩ : ∃ j2, j - n = j2 + 4 := ⟨j - n - 4, by omega⟩
      rw [hj2]
      rw [show (102 :: 111 :: 111 :: 10 :: List.replicate n 32 : Bytes).getD (j2+4) 0
          = (List.replicate n (32:Nat)).getD j2 0 from by
        simp [List.getD_cons_succ]]
      rw [getD_replicate32]
      by_cases hx : j2 < n <;> simp [hx]

theorem contentA_getD_n4 (n : Nat) : (contentA n).getD (n+4) 0 = 10 := by
  unfold contentA
  rw [show n+4 = (n+3)+1 from by omega, List.getD_cons_succ]
  rw [List.getD_append_right _ _ _ _ (by simp)]
  simp only [List.length_replicate]
  rw [show n + 3 - n = 3 from by omega]
  rfl

theorem trimA (n : Nat) :
    TrimEmptyLinesSuffix (contentA n) =
      10 :: (List.replicate n 32 ++ [102, 111, 111]) := by
  have hlen : (contentA n).length = 2*n+5 := by simp [contentA]; omega
  unfold TrimEmptyLinesSuffix
  rw [hlen]
  -- skip the trailing whitespace-only region (indices n+5 .. 2n+4)
  rw [show 2*n+5 = (n+5)+n from by omega,
    trimAux_skip (contentA n) n (n+5) ((n+5)+n) (fun j hj1 hj2 =>
      ⟨contentA_getD_mid n j (by omega) (by omega) (by omega), by omega⟩)]
  -- the line-break at index n+4: the line after it is all spaces, trim it
  have hdrop : (contentA n).drop (n+5) = List.replicate n 32 := by
    unfold contentA
    rw [show n+5 = (n+4)+1 from by omega, List.drop_succ_cons]
    rw [List.drop_append_eq_append_drop]
    simp
  rw [show n+5 = (n+4)+1 from by omega]
  rw [show trimAux (contentA n) ((n+4)+1) ((n+4)+1+n) = trimAux (contentA n) (n+4) (n+4) from by
    have h10 : ((contentA n).getD (n+4) 0 == 10) = true := by
      rw [contentA_getD_n4]; rfl
    simp only [trimAux, h10, if_true]
    rw [show (n+4)+1+n - ((n+4)+1) = n from by omega]
    rw [hdrop]
    rw [show (List.replicate n (32:Nat)).take n = List.replicate n 32 from by simp]
    simp [lineIsBlank, isTrimSpaceByte]]
  -- skip the spaces and foo (indices 1 .. n+3)
  rw [show n+4 = 1+(n+3) from by omega,
    trimAux_skip (contentA n) (n+3) 1 (1+(n+3)) (fun j hj1 hj2 =>
      ⟨contentA_getD_mid n j (by omega) (by omega) (by omega), by omega⟩)]
  -- index 0 holds the leading line-break; the line after it is not blank
  have hcore : (List.replicate n 32 ++
      (102 :: 111 :: 111 :: 10 :: List.replicate n 32) : Bytes).take (n+3) =
      List.replicate n 32 ++ [102, 111, 111] := by
    rw [List.take_append_eq_append_take]
    rw [List.take_of_length_le (by simp)]
    simp only [List.length_replicate]
    rw [show n + 3 - n = 3 from by omega]
    rfl
  have hline : ((contentA n).drop 1).take (1+(n+3) - 1) =
      List.replicate n 32 ++ [102, 111, 111] := by
    unfold contentA
    rw [List.drop_succ_cons, List.drop_zero, show 1+(n+3) - 1 = n+3 from by omega]
    exact hcore
  rw [show (1:Nat) = 0+1 from rfl]
  rw [show trimAux (contentA n) (0+1) (1+(n+3)) = 1+(n+3) from by
    have h10 : ((contentA n).getD 0 0 == 10) = true := rfl
    rw [trimAux, h10]
    simp only [if_true]
    have hnb : lineIsBlank (List.replicate n 32 ++ [102, 111, 111]) = false := by
      simp [lineIsBlank, isTrimSpaceByte]
    rw [show (0+1 : Nat) = 1 from rfl, hline, hnb]
    simp]
  -- the kept prefix is the line-break, the indentation and foo
  rw [show 1+(n+3) = (n+3)+1 from by omega]
  unfold contentA
  rw [List.take_succ_cons]
  rw [hcore]


theorem iterA (n : Nat) :
    IterateBlockStringLines (10 :: (List.replicate n 32 ++ [102, 111, 111])) n =
      [[102, 111, 111]] := by
  unfold IterateBlockStringLines
  have hfb : (10 :: (List.replicate n 32 ++ [102, 111, 111]) : Bytes).takeWhile
      (fun c => c != 10) = [] := by
    simp [List.takeWhile_cons]
  rw [hfb]
  simp only [List.all_nil, if_true, List.length_nil, List.drop_succ_cons,
    List.drop_zero, List.nil_append]
  have hlen : (List.replicate n 32 ++ ([102, 111, 111] : Bytes)).length = n + 3 := by
    simp
  rw [hlen, show n+3+1 = (n+3)+1 from rfl]
  have hne : (List.replicate n 32 ++ ([102, 111, 111] : Bytes)).isEmpty = false := by
    simp [List.isEmpty_eq_false]
  have htw : (List.replicate n 32 ++ ([102, 111, 111] : Bytes)).takeWhile IsWhiteSpace
      = List.replicate n 32 := by
    rw [List.takeWhile_append_of_pos (by
      intro a ha
      rw [List.eq_of_mem_replicate ha]
      rfl)]
    simp [List.takeWhile_cons, IsWhiteSpace]
  have hdrop : (List.replicate n 32 ++ ([102, 111, 111] : Bytes)).drop n =
      [102, 111, 111] := by
    exact List.drop_left' (by simp)
  rw [iterContAux, hne]
  simp only [Bool.false_eq_true, if_false, htw, List.length_replicate, Nat.min_self,
    hdrop]
  have hbody : (([102, 111, 111] : Bytes)).takeWhile (fun c => c != 10) =
      [102, 111, 111] := by rfl
  rw [hbody]
  have hd2 : (List.replicate n 32 ++ ([102, 111, 111] : Bytes)).drop (n + 3) = [] := by
    apply List.drop_eq_nil_of_le
    simp
  rw [show (([102, 111, 111] : Bytes)).length = 3 from rfl, hd2]
  have hple : n ≤ n + 3 := by omega
  have htake : (List.replicate n 32 ++ ([102, 111, 111] : Bytes)).take (n + 3) =
      List.replicate n 32 ++ [102, 111, 111] := by
    apply List.take_of_length_le
    simp
  simp only [hple, if_true, htake]
  rw [List.drop_append_eq_append_drop]
  simp


theorem blockScanA (n : Nat) :
    ReadStringBlockAfterQuotes (contentA n ++ [34, 34, 34]) =
      (some (contentA n ++ [34, 34, 34]), n, [], none) := by
  have hlen : (contentA n ++ ([34, 34, 34] : Bytes)).length = 2*n+8 := by
    simp [contentA]; omega
  unfold ReadStringBlockAfterQuotes
  rw [hlen]
  rw [show contentA n ++ ([34, 34, 34] : Bytes) =
      10 :: (List.replicate n 32 ++
        (102 :: 111 :: 111 :: 10 :: (List.replicate n 32 ++ [34, 34, 34]))) from by
    simp [contentA]]
  exact blockScanShape n

theorem iterNil (pl : Nat) : IterateBlockStringLines [] pl = [] := by
  unfold IterateBlockStringLines
  simp [iterContAux]

theorem readValueBlockA (fuel n : Nat) :
    ReadValue (fuel + 1) (bsIndent n) =
      some ([HPrefValueString, [102, 111, 111]],
        10 :: (List.replicate n 32 ++ [102, 111, 111]), 4, [], none) := by
  have h1 : bsIndent n = 34 :: 34 :: 34 :: (contentA n ++ [34, 34, 34]) := by
    simp [bsIndent]
  have e34 : IsDigit 34 = false := rfl
  have hsl : (34 :: 34 :: 34 :: (contentA n ++ ([34, 34, 34] : Bytes))).length
      = 2*n+11 := by simp [contentA]; omega
  have hcl : (contentA n).length = 2*n+5 := by simp [contentA]; omega
  rw [h1]
  simp only [ReadValue, HasPrefix, tokNull, tokTrue, tokFalse]
  norm_num [e34]
  rw [blockScanA]
  simp only [List.length_nil, hcl]
  rw [show 2*n+5+3+1+1+1 - 0 - 6 = 2*n+5 from by omega]
  rw [List.take_left' hcl, trimA, iterA]

theorem readValueBlockWs (fuel : Nat) (content : Bytes)
    (hall : content.all (fun b => b == 32 || b == 9 || b == 10) = true) :
    ReadValue (fuel + 1) ([34, 34, 34] ++ (content ++ [34, 34, 34])) =
      some ([HPrefValueString], [], 4, [], none) := by
  have e34 : IsDigit 34 = false := rfl
  have hfl : content.length < (content ++ ([34, 34, 34] : Bytes)).length + 1 := by
    simp; omega
  obtain ⟨pl, hpl⟩ := blockScanWsAux (content ++ [34, 34, 34]) content
    ((content ++ ([34, 34, 34] : Bytes)).length + 1) 0 ⟨0, false, 0, false⟩ .norm
    hall rfl hfl
  have hscan : ReadStringBlockAfterQuotes (content ++ [34, 34, 34]) =
      (none, pl, [], none) := by
    unfold ReadStringBlockAfterQuotes
    rw [hpl]
    rw [List.drop_eq_nil_of_le (by simp)]
  rw [show ([34, 34, 34] : Bytes) ++ (content ++ [34, 34, 34])
      = 34 :: 34 :: 34 :: (content ++ [34, 34, 34]) from rfl]
  simp only [ReadValue, HasPrefix, tokNull, tokTrue, tokFalse]
  norm_num [e34]
  rw [hscan]
  dsimp only
  rw [iterNil]

/-- C5: the digest receives the indentation-normalized block string
content.  First part: for every indentation amount `n`, the block string
consisting of a line-break, `n` spaces, `foo`, a line-break and `n`
spaces writes exactly the String marker followed by the single chunk
`foo`, independent of `n` (so adding common leading indentation on all
lines leaves the written bytes, and hence the fingerprint, unchanged).
Second part: every block string whose content consists only of spaces,
tabs and line-breaks writes the String marker followed by zero payload
bytes. -/
theorem block_string_normalization :
    (∀ (fuel n : Nat), ReadValue (fuel + 1) (bsIndent n) =
      some ([HPrefValueString, [102, 111, 111]],
        10 :: (List.replicate n 32 ++ [102, 111, 111]), 4, [], none)) ∧
    (∀ (fuel : Nat) (content : Bytes),
      content.all (fun b => b == 32 || b == 9 || b == 10) = true →
      ReadValue (fuel + 1) ([34, 34, 34] ++ (content ++ [34, 34, 34])) =
        some ([HPrefValueString], [], 4, [], none)) :=
  ⟨fun fuel n => readValueBlockA fuel n, fun fuel c h => readValueBlockWs fuel c h⟩

/-- C5 witness: indentation 2 of the `foo` block string, and the
whitespace-only content of a space, a line-break and a tab. -/
theorem block_string_normalization_witness :
    ReadValue 1 (bsIndent 2) =
      some ([HPrefValueString, [102, 111, 111]],
        10 :: (List.replicate 2 32 ++ [102, 111, 111]), 4, [], none) ∧
    ReadValue 1 ([34, 34, 34] ++ ([32, 10, 9] ++ [34, 34, 34])) =
      some ([HPrefValueString], [], 4, [], none) :=
  ⟨block_string_normalization.1 0 2,
   block_string_normalization.2 0 [32, 10, 9] (by decide)⟩

end GqlHash
